import Mathlib

/-!
Verification development for the spaceship wireframe renderer.

The Go sources are embedded shallowly:
* `vector/vec3.go` (together with the vector operations quoted in the
  repository's walkthrough document): `Vec3` and `Add`, `Sub`, `Scale`,
  `Dot`, `Cross`.
* `vector/mat4x4.go` (current snapshot): `Mat4x4`, `MultiplyVec3` (which
  returns the undivided point together with the homogeneous divisor `w`),
  `Multiply`, `NewTranslation`, `NewRotationX/Y/Z`, `NewPerspective`.
* `main.go`: the physics step `Update`, the input listener's per-event state
  mutation `processEvent`, the per-triangle pipeline stage `processTriangle`
  (model-view transform, back-face culling, clip test, perspective divide),
  and the Bresenham rasterizer `drawLine`.

`float64` values are modelled as elements of a linear ordered field (scalar
arithmetic is exact); the game-state layer is instantiated at `ℝ` because it
uses `math.Pi`, `math.Sin`, `math.Cos`.  Screen coordinates handled by
`drawLine` are modelled as `ℤ`.
-/

namespace Spaceship

/-- `Vec3` from `vector/vec3.go`: three 64-bit floats X, Y, Z. -/
structure Vec3 (α : Type) where
  X : α
  Y : α
  Z : α
  deriving DecidableEq

variable {α : Type} [LinearOrderedField α]

/-- `func (v1 Vec3) Add(v2 Vec3) Vec3`. -/
def Vec3.Add (v1 v2 : Vec3 α) : Vec3 α :=
  ⟨v1.X + v2.X, v1.Y + v2.Y, v1.Z + v2.Z⟩

/-- `func (v1 Vec3) Sub(v2 Vec3) Vec3`. -/
def Vec3.Sub (v1 v2 : Vec3 α) : Vec3 α :=
  ⟨v1.X - v2.X, v1.Y - v2.Y, v1.Z - v2.Z⟩

/-- `func (v Vec3) Scale(s float64) Vec3`. -/
def Vec3.Scale (v : Vec3 α) (s : α) : Vec3 α :=
  ⟨v.X * s, v.Y * s, v.Z * s⟩

/-- `func (v1 Vec3) Dot(v2 Vec3) float64`. -/
def Vec3.Dot (v1 v2 : Vec3 α) : α :=
  v1.X * v2.X + v1.Y * v2.Y + v1.Z * v2.Z

/-- `func (v1 Vec3) Cross(v2 Vec3) Vec3`. -/
def Vec3.Cross (v1 v2 : Vec3 α) : Vec3 α :=
  ⟨v1.Y * v2.Z - v1.Z * v2.Y,
   v1.Z * v2.X - v1.X * v2.Z,
   v1.X * v2.Y - v1.Y * v2.X⟩

/-- `Mat4x4` from `vector/mat4x4.go`: the flat array `M [16]float64`,
one field per slot (`M0` is `M[0]`, …, `M15` is `M[15]`).  The layout is
column-major: slot `c*4 + r` holds the entry in row `r`, column `c`. -/
structure Mat4x4 (α : Type) where
  M0 : α
  M1 : α
  M2 : α
  M3 : α
  M4 : α
  M5 : α
  M6 : α
  M7 : α
  M8 : α
  M9 : α
  M10 : α
  M11 : α
  M12 : α
  M13 : α
  M14 : α
  M15 : α
  deriving DecidableEq

/-- `func (mat Mat4x4) MultiplyVec3(v Vec3) (Vec3, float64)` (current
snapshot): returns the undivided transformed components together with the
homogeneous divisor `w`; no division happens here. -/
def Mat4x4.MultiplyVec3 (mat : Mat4x4 α) (v : Vec3 α) : Vec3 α × α :=
  (⟨v.X * mat.M0 + v.Y * mat.M4 + v.Z * mat.M8 + mat.M12,
    v.X * mat.M1 + v.Y * mat.M5 + v.Z * mat.M9 + mat.M13,
    v.X * mat.M2 + v.Y * mat.M6 + v.Z * mat.M10 + mat.M14⟩,
   v.X * mat.M3 + v.Y * mat.M7 + v.Z * mat.M11 + mat.M15)

/-- `func (m1 Mat4x4) Multiply(m2 Mat4x4) Mat4x4`, the source's triple loop
`result.M[i*4+j] = Σ_k m1.M[k*4+j] * m2.M[i*4+k]` unrolled over all
`i, j ∈ {0,…,3}` (slot `i*4+j` of the result is listed in order). -/
def Mat4x4.Multiply (m1 m2 : Mat4x4 α) : Mat4x4 α :=
  ⟨m1.M0 * m2.M0 + m1.M4 * m2.M1 + m1.M8 * m2.M2 + m1.M12 * m2.M3,
   m1.M1 * m2.M0 + m1.M5 * m2.M1 + m1.M9 * m2.M2 + m1.M13 * m2.M3,
   m1.M2 * m2.M0 + m1.M6 * m2.M1 + m1.M10 * m2.M2 + m1.M14 * m2.M3,
   m1.M3 * m2.M0 + m1.M7 * m2.M1 + m1.M11 * m2.M2 + m1.M15 * m2.M3,
   m1.M0 * m2.M4 + m1.M4 * m2.M5 + m1.M8 * m2.M6 + m1.M12 * m2.M7,
   m1.M1 * m2.M4 + m1.M5 * m2.M5 + m1.M9 * m2.M6 + m1.M13 * m2.M7,
   m1.M2 * m2.M4 + m1.M6 * m2.M5 + m1.M10 * m2.M6 + m1.M14 * m2.M7,
   m1.M3 * m2.M4 + m1.M7 * m2.M5 + m1.M11 * m2.M6 + m1.M15 * m2.M7,
   m1.M0 * m2.M8 + m1.M4 * m2.M9 + m1.M8 * m2.M10 + m1.M12 * m2.M11,
   m1.M1 * m2.M8 + m1.M5 * m2.M9 + m1.M9 * m2.M10 + m1.M13 * m2.M11,
   m1.M2 * m2.M8 + m1.M6 * m2.M9 + m1.M10 * m2.M10 + m1.M14 * m2.M11,
   m1.M3 * m2.M8 + m1.M7 * m2.M9 + m1.M11 * m2.M10 + m1.M15 * m2.M11,
   m1.M0 * m2.M12 + m1.M4 * m2.M13 + m1.M8 * m2.M14 + m1.M12 * m2.M15,
   m1.M1 * m2.M12 + m1.M5 * m2.M13 + m1.M9 * m2.M14 + m1.M13 * m2.M15,
   m1.M2 * m2.M12 + m1.M6 * m2.M13 + m1.M10 * m2.M14 + m1.M14 * m2.M15,
   m1.M3 * m2.M12 + m1.M7 * m2.M13 + m1.M11 * m2.M14 + m1.M15 * m2.M15⟩

/-- `func NewTranslation(x, y, z float64) Mat4x4`. -/
def NewTranslation (x y z : α) : Mat4x4 α :=
  ⟨1, 0, 0, 0,
   0, 1, 0, 0,
   0, 0, 1, 0,
   x, y, z, 1⟩

/-- `func NewRotationX(angle float64) Mat4x4`. -/
noncomputable def NewRotationX (angle : ℝ) : Mat4x4 ℝ :=
  ⟨1, 0, 0, 0,
   0, Real.cos angle, Real.sin angle, 0,
   0, -Real.sin angle, Real.cos angle, 0,
   0, 0, 0, 1⟩

/-- `func NewRotationY(angle float64) Mat4x4`. -/
noncomputable def NewRotationY (angle : ℝ) : Mat4x4 ℝ :=
  ⟨Real.cos angle, 0, -Real.sin angle, 0,
   0, 1, 0, 0,
   Real.sin angle, 0, Real.cos angle, 0,
   0, 0, 0, 1⟩

/-- `func NewRotationZ(angle float64) Mat4x4`. -/
noncomputable def NewRotationZ (angle : ℝ) : Mat4x4 ℝ :=
  ⟨Real.cos angle, Real.sin angle, 0, 0,
   -Real.sin angle, Real.cos angle, 0, 0,
   0, 0, 1, 0,
   0, 0, 0, 1⟩

/-- `func NewPerspective(fov, aspectRatio, near, far float64) Mat4x4` with
`f = 1/tan(fov*π/360)`. -/
noncomputable def NewPerspective (fov aspectRatio near far : ℝ) : Mat4x4 ℝ :=
  let f := 1.0 / Real.tan (fov * Real.pi / 360.0)
  ⟨f / aspectRatio, 0, 0, 0,
   0, f, 0, 0,
   0, 0, (far + near) / (near - far), -1,
   0, 0, (2 * far * near) / (near - far), 0⟩

/-- The homogeneous divide applied to the output of `MultiplyVec3`: divide
the three components by the divisor `w`, as the earlier `MultiplyVec3`
snapshot did internally and as the spec's `TransformPoint` property assumes
when it says "after applying each homogeneous divide consistently". -/
def homogeneousDivide (p : Vec3 α) (w : α) : Vec3 α :=
  ⟨p.X / w, p.Y / w, p.Z / w⟩

/-- `const fov = 90.0` from `main.go`. -/
def fov : ℝ := 90.0

/-- `const friction = 0.99` from `main.go`. -/
def friction : ℝ := 0.99

/-- `const thrust = 0.005` from `main.go`. -/
def thrust : ℝ := 0.005

/-- `const brakeForce = 0.05` from `main.go`. -/
def brakeForce : ℝ := 0.05

/-- `type Player struct` from `main.go`.  The mouse coordinates delivered by
tcell are machine integers, modelled as `ℤ`. -/
structure Player where
  Position : Vec3 ℝ
  Velocity : Vec3 ℝ
  Yaw : ℝ
  Pitch : ℝ
  prevMouseX : ℤ
  prevMouseY : ℤ
  firstMouse : Bool

/-- `func (p *Player) Forward() vector.Vec3` from `main.go`. -/
noncomputable def Player.Forward (p : Player) : Vec3 ℝ :=
  let yaw := p.Yaw
  let pitch := p.Pitch
  let x := -Real.sin yaw * Real.cos pitch
  let y := Real.sin pitch
  let z := -Real.cos yaw * Real.cos pitch
  ⟨x, y, z⟩

/-- `type GameState struct` from `main.go`. -/
structure GameState where
  vertices : List (Vec3 ℝ)
  angle : ℝ
  player : Player

/-- `func (gs *GameState) Update()` from `main.go`: advance the spin angle by
`0.01`, multiply the velocity by `friction`, then add the (new) velocity to
the position. -/
noncomputable def GameState.Update (gs : GameState) : GameState :=
  let angle := gs.angle + 0.01
  let velocity := gs.player.Velocity.Scale friction
  let position := gs.player.Position.Add velocity
  { gs with
    angle := angle
    player := { gs.player with Velocity := velocity, Position := position } }

/-- The input events the listener goroutine in `main.go` reacts to:
`tcell.EventKey` carrying a rune, and `tcell.EventMouse` carrying the mouse
position.  (The quit path for the rune 'q' closes the quit channel and
returns without touching the state.) -/
inductive Event where
  | Key (c : Char)
  | Mouse (x y : ℤ)

/-- The state mutation the listener goroutine in `main.go` performs for one
polled event.  Key branch: the rune switch ('a'/'d' yaw, 'r'/'f' pitch,
'w' thrust, 's' brake; 'q' returns immediately), followed by the pitch clamp
to `±(π/2 - 0.01)` — the clamp sits at the end of the key-event case only.
Mouse branch: on the first event just record the position; afterwards apply
the deltas scaled by `0.05` to yaw and pitch (no clamp here). -/
noncomputable def processEvent (gs : GameState) : Event → GameState
  | .Key c =>
    if c = 'q' then gs
    else
      let p := gs.player
      let p :=
        match c with
        | 'a' => { p with Yaw := p.Yaw + 0.03 }
        | 'd' => { p with Yaw := p.Yaw - 0.03 }
        | 'r' => { p with Pitch := p.Pitch + 0.03 }
        | 'f' => { p with Pitch := p.Pitch - 0.03 }
        | 'w' => { p with Velocity := p.Velocity.Add (p.Forward.Scale thrust) }
        | 's' => { p with Velocity := p.Velocity.Add (p.Velocity.Scale (-brakeForce)) }
        | _ => p
      let maxPitch := Real.pi / 2 - 0.01
      let p :=
        if p.Pitch > maxPitch then { p with Pitch := maxPitch }
        else if p.Pitch < -maxPitch then { p with Pitch := -maxPitch }
        else p
      { gs with player := p }
  | .Mouse newX newY =>
    if gs.player.firstMouse then
      { gs with player :=
        { gs.player with prevMouseX := newX, prevMouseY := newY, firstMouse := false } }
    else
      let dx : ℝ := ((newX - gs.player.prevMouseX : ℤ) : ℝ)
      let dy : ℝ := ((newY - gs.player.prevMouseY : ℤ) : ℝ)
      { gs with player :=
        { gs.player with
          Yaw := gs.player.Yaw - dx * 0.05
          Pitch := gs.player.Pitch - dy * 0.05
          prevMouseX := newX
          prevMouseY := newY } }

/-- The initial `GameState` built in `main` (cube vertices, angle 0, player
at `(0,0,5)` with `firstMouse` set; the remaining fields are Go zero
values). -/
def initialState : GameState :=
  { vertices :=
      [⟨-1, -1, -1⟩, ⟨1, -1, -1⟩, ⟨1, 1, -1⟩, ⟨-1, 1, -1⟩,
       ⟨-1, -1, 1⟩, ⟨1, -1, 1⟩, ⟨1, 1, 1⟩, ⟨-1, 1, 1⟩]
    angle := 0
    player :=
      { Position := ⟨0, 0, 5⟩
        Velocity := ⟨0, 0, 0⟩
        Yaw := 0
        Pitch := 0
        prevMouseX := 0
        prevMouseY := 0
        firstMouse := true } }

/-- The back-face culling test of the render loop in `main.go`: transform the
three vertices by the model-view matrix (keeping the undivided components,
discarding `w`), form the normal `Cross(tv2 - tv1, tv3 - tv1)`, and report
whether `Dot(normal, tv1) >= 0` (the triangle is skipped). -/
def backfaceCulled (modelViewMatrix : Mat4x4 α) (v1 v2 v3 : Vec3 α) : Bool :=
  let tv1 := (modelViewMatrix.MultiplyVec3 v1).1
  let tv2 := (modelViewMatrix.MultiplyVec3 v2).1
  let tv3 := (modelViewMatrix.MultiplyVec3 v3).1
  let normal := (tv2.Sub tv1).Cross (tv3.Sub tv1)
  decide (0 ≤ normal.Dot tv1)

/-- The per-triangle pipeline stage of the render loop in `main.go`, from the
model-view transform through the perspective divide: cull via
`backfaceCulled`; project the three vertices with the MVP matrix; discard
the triangle whenever any homogeneous divisor is below `0.1`; otherwise
divide `X` and `Y` of each projected vertex by its divisor (`Z` is left
untouched, exactly as in the source) and hand the three divided points on
(the remaining source lines convert them to screen cells and draw the three
edges with `drawLine`). -/
def processTriangle (modelViewMatrix mvpMatrix : Mat4x4 α) (v1 v2 v3 : Vec3 α) :
    Option (Vec3 α × Vec3 α × Vec3 α) :=
  if backfaceCulled modelViewMatrix v1 v2 v3 then none
  else
    let pw1 := mvpMatrix.MultiplyVec3 v1
    let pw2 := mvpMatrix.MultiplyVec3 v2
    let pw3 := mvpMatrix.MultiplyVec3 v3
    if pw1.2 < 0.1 ∨ pw2.2 < 0.1 ∨ pw3.2 < 0.1 then none
    else
      some (⟨pw1.1.X / pw1.2, pw1.1.Y / pw1.2, pw1.1.Z⟩,
            ⟨pw2.1.X / pw2.2, pw2.1.Y / pw2.2, pw2.1.Z⟩,
            ⟨pw3.1.X / pw3.2, pw3.1.Y / pw3.2, pw3.1.Z⟩)

/-- The body of `drawLine`'s Bresenham loop from `main.go`, with an explicit
fuel argument.  One recursion step is one loop iteration: plot `(x1, y1)`,
stop if the endpoint is reached, otherwise compute `e2 = 2*err` and take the
conditional x and y steps.  The returned list collects the plotted cells in
order; `none` means the fuel ran out before the loop hit its break. -/
def plotLoop (x2 y2 dx dy sx sy : ℤ) : ℕ → ℤ → ℤ → ℤ → Option (List (ℤ × ℤ))
  | 0, _, _, _ => none
  | n + 1, x1, y1, err =>
    if x1 = x2 ∧ y1 = y2 then some [(x1, y1)]
    else
      let e2 := 2 * err
      let err1 := if e2 > -dy then err - dy else err
      let x1n := if e2 > -dy then x1 + sx else x1
      let err2 := if e2 < dx then err1 + dx else err1
      let y1n := if e2 < dx then y1 + sy else y1
      match plotLoop x2 y2 dx dy sx sy n x1n y1n err2 with
      | none => none
      | some l => some ((x1, y1) :: l)

/-- `func drawLine(screen tcell.Screen, x1, y1, x2, y2 int, style tcell.Style)`
from `main.go`: set up `dx = |x2-x1|`, `dy = |y2-y1|`, the step signs and
`err = dx - dy`, then run the loop.  The fuel `dx + dy + 1` is enough for the
loop to reach its break (proved below), so the `Option` is always `some`. -/
def drawLine (x1 y1 x2 y2 : ℤ) : Option (List (ℤ × ℤ)) :=
  let dx := if x2 - x1 < 0 then -(x2 - x1) else x2 - x1
  let dy := if y2 - y1 < 0 then -(y2 - y1) else y2 - y1
  let sx : ℤ := if x1 < x2 then 1 else -1
  let sy : ℤ := if y1 < y2 then 1 else -1
  plotLoop x2 y2 dx dy sx sy (dx + dy + 1).toNat x1 y1 (dx - dy)

end Spaceship

namespace Spaceship

section RasterizerLemmas

/-- One unfolding of the Bresenham loop at positive fuel. -/
theorem plotLoop_succ_eq (x2 y2 dx dy sx sy : ℤ) (n : ℕ) (x1 y1 err : ℤ) :
    plotLoop x2 y2 dx dy sx sy (n + 1) x1 y1 err =
      if x1 = x2 ∧ y1 = y2 then some [(x1, y1)]
      else
        match plotLoop x2 y2 dx dy sx sy n
            (if 2 * err > -dy then x1 + sx else x1)
            (if 2 * err < dx then y1 + sy else y1)
            (if 2 * err < dx then (if 2 * err > -dy then err - dy else err) + dx
             else (if 2 * err > -dy then err - dy else err)) with
        | none => none
        | some l => some ((x1, y1) :: l) := rfl

/-- Invariant-based progress lemma for the Bresenham loop: starting from the
state that is `u` x-steps and `v` y-steps short of the endpoint, with the
error term determined by `u` and `v`, fuel `n + 1` with `u + v ≤ n` makes the
loop reach the endpoint; the start and the endpoint are both plotted. -/
theorem plotLoop_reaches (x2 y2 dx dy sx sy : ℤ)
    (hsx : sx = 1 ∨ sx = -1) (hsy : sy = 1 ∨ sy = -1) :
    ∀ (n : ℕ) (u v : ℤ), 0 ≤ u → u ≤ dx → 0 ≤ v → v ≤ dy → u + v ≤ (n : ℤ) →
    ∃ L, plotLoop x2 y2 dx dy sx sy (n + 1) (x2 - u * sx) (y2 - v * sy)
          (dx - dy + u * dy - v * dx) = some L ∧
        (x2 - u * sx, y2 - v * sy) ∈ L ∧ (x2, y2) ∈ L := by
  intro n
  induction n with
  | zero =>
    intro u v hu0 hud hv0 hvd huv
    have hu : u = 0 := by omega
    have hv : v = 0 := by omega
    subst hu; subst hv
    refine ⟨[(x2, y2)], by simp [plotLoop], by simp, by simp⟩
  | succ n ih =>
    intro u v hu0 hud hv0 hvd huv
    by_cases hz : u = 0 ∧ v = 0
    · obtain ⟨hu, hv⟩ := hz; subst hu; subst hv
      refine ⟨[(x2, y2)], by simp [plotLoop], by simp, by simp⟩
    · have hne : ¬(x2 - u * sx = x2 ∧ y2 - v * sy = y2) := by
        rcases hsx with h1 | h1 <;> rcases hsy with h2 | h2 <;> subst h1 <;> subst h2 <;> omega
      have huv' : u + v ≤ (n : ℤ) + 1 := by push_cast at huv; linarith
      rw [plotLoop_succ_eq, if_neg hne]
      by_cases hX : 2 * (dx - dy + u * dy - v * dx) > -dy <;>
        by_cases hY : 2 * (dx - dy + u * dy - v * dx) < dx
      · -- both the x branch and the y branch fire
        simp only [if_pos hX, if_pos hY]
        have hu1 : 1 ≤ u := by
          by_contra h
          have hu' : u = 0 := by omega
          have hv1 : 1 ≤ v := by omega
          have h1 : u * dy = 0 := by rw [hu']; ring
          have h2 : dx ≤ v * dx := by
            nlinarith [mul_nonneg (show (0:ℤ) ≤ v - 1 by omega) (show (0:ℤ) ≤ dx by omega)]
          linarith
        have hv1 : 1 ≤ v := by
          by_contra h
          have hv' : v = 0 := by omega
          have hu1 : 1 ≤ u := by omega
          have h1 : v * dx = 0 := by rw [hv']; ring
          have h2 : dy ≤ u * dy := by
            nlinarith [mul_nonneg (show (0:ℤ) ≤ u - 1 by omega) (show (0:ℤ) ≤ dy by omega)]
          linarith
        obtain ⟨L, hL, hm1, hm2⟩ := ih (u - 1) (v - 1) (by omega) (by omega) (by omega)
          (by omega) (by linarith)
        rw [show x2 - u * sx + sx = x2 - (u - 1) * sx by ring,
            show y2 - v * sy + sy = y2 - (v - 1) * sy by ring,
            show dx - dy + u * dy - v * dx - dy + dx
                = dx - dy + (u - 1) * dy - (v - 1) * dx by ring, hL]
        exact ⟨(x2 - u * sx, y2 - v * sy) :: L, rfl, List.mem_cons_self _ _,
          List.mem_cons_of_mem _ hm2⟩
      · -- only the x branch fires
        simp only [if_pos hX, if_neg hY]
        have hu1 : 1 ≤ u := by
          by_contra h
          have hu' : u = 0 := by omega
          have hv1 : 1 ≤ v := by omega
          have h1 : u * dy = 0 := by rw [hu']; ring
          have h2 : dx ≤ v * dx := by
            nlinarith [mul_nonneg (show (0:ℤ) ≤ v - 1 by omega) (show (0:ℤ) ≤ dx by omega)]
          linarith
        obtain ⟨L, hL, hm1, hm2⟩ := ih (u - 1) v (by omega) (by omega) (by omega)
          (by omega) (by linarith)
        rw [show x2 - u * sx + sx = x2 - (u - 1) * sx by ring,
            show dx - dy + u * dy - v * dx - dy = dx - dy + (u - 1) * dy - v * dx by ring, hL]
        exact ⟨(x2 - u * sx, y2 - v * sy) :: L, rfl, List.mem_cons_self _ _,
          List.mem_cons_of_mem _ hm2⟩
      · -- only the y branch fires
        simp only [if_neg hX, if_pos hY]
        have hv1 : 1 ≤ v := by
          by_contra h
          have hv' : v = 0 := by omega
          have hu1 : 1 ≤ u := by omega
          have h1 : v * dx = 0 := by rw [hv']; ring
          have h2 : dy ≤ u * dy := by
            nlinarith [mul_nonneg (show (0:ℤ) ≤ u - 1 by omega) (show (0:ℤ) ≤ dy by omega)]
          linarith
        obtain ⟨L, hL, hm1, hm2⟩ := ih u (v - 1) (by omega) (by omega) (by omega)
          (by omega) (by linarith)
        rw [show y2 - v * sy + sy = y2 - (v - 1) * sy by ring,
            show dx - dy + u * dy - v * dx + dx = dx - dy + u * dy - (v - 1) * dx by ring, hL]
        exact ⟨(x2 - u * sx, y2 - v * sy) :: L, rfl, List.mem_cons_self _ _,
          List.mem_cons_of_mem _ hm2⟩
      · -- neither branch fires: impossible while short of the endpoint
        exfalso
        have h1 : dx ≤ 2 * (dx - dy + u * dy - v * dx) := by
          have := not_lt.mp hY; linarith
        have h2 : 2 * (dx - dy + u * dy - v * dx) ≤ -dy := by
          have := not_lt.mp hX; linarith
        have h3 : dx ≤ -dy := le_trans h1 h2
        omega

/-- `drawLine` unfolded to its `plotLoop` call. -/
theorem drawLine_def (x1 y1 x2 y2 : ℤ) :
    drawLine x1 y1 x2 y2 =
      plotLoop x2 y2 (if x2 - x1 < 0 then -(x2 - x1) else x2 - x1)
        (if y2 - y1 < 0 then -(y2 - y1) else y2 - y1)
        (if x1 < x2 then 1 else -1) (if y1 < y2 then 1 else -1)
        ((if x2 - x1 < 0 then -(x2 - x1) else x2 - x1) +
            (if y2 - y1 < 0 then -(y2 - y1) else y2 - y1) + 1).toNat
        x1 y1
        ((if x2 - x1 < 0 then -(x2 - x1) else x2 - x1) -
            (if y2 - y1 < 0 then -(y2 - y1) else y2 - y1)) := rfl

/-- `plotLoop_reaches` re-based at the loop's true starting state. -/
theorem plotLoop_start (x1 y1 x2 y2 dx dy sx sy : ℤ) (n : ℕ)
    (hsx : sx = 1 ∨ sx = -1) (hsy : sy = 1 ∨ sy = -1)
    (hdx0 : 0 ≤ dx) (hdy0 : 0 ≤ dy)
    (hxe : dx * sx = x2 - x1) (hye : dy * sy = y2 - y1)
    (hn : dx + dy ≤ (n : ℤ)) :
    ∃ L, plotLoop x2 y2 dx dy sx sy (n + 1) x1 y1 (dx - dy) = some L ∧
      (x1, y1) ∈ L ∧ (x2, y2) ∈ L := by
  obtain ⟨L, hL, hm1, hm2⟩ :=
    plotLoop_reaches x2 y2 dx dy sx sy hsx hsy n dx dy hdx0 le_rfl hdy0 le_rfl hn
  rw [show dx - dy + dx * dy - dy * dx = dx - dy by ring,
      show x2 - dx * sx = x1 by linarith, show y2 - dy * sy = y1 by linarith] at hL
  rw [show x2 - dx * sx = x1 by linarith, show y2 - dy * sy = y1 by linarith] at hm1
  exact ⟨L, hL, hm1, hm2⟩

/-- For a horizontal segment (`dy = 0`) the loop steps along x only, keeping
`err = dx`; the plotted cells are exactly the cells `(x2 - k*sx, y2)` for
`0 ≤ k ≤ u`. -/
theorem plotLoop_horizontal (x2 y2 dx sx sy : ℤ) (hsx : sx = 1 ∨ sx = -1) :
    ∀ (n : ℕ) (u : ℤ), 0 ≤ u → u ≤ dx → u ≤ (n : ℤ) →
    ∃ L, plotLoop x2 y2 dx 0 sx sy (n + 1) (x2 - u * sx) y2 dx = some L ∧
      ∀ p : ℤ × ℤ, p ∈ L ↔ ∃ k : ℤ, 0 ≤ k ∧ k ≤ u ∧ p = (x2 - k * sx, y2) := by
  intro n
  induction n with
  | zero =>
    intro u hu0 hud hun
    have hu : u = 0 := by omega
    subst hu
    refine ⟨[(x2, y2)], by simp [plotLoop], fun p => ?_⟩
    simp only [List.mem_singleton]
    constructor
    · rintro rfl; exact ⟨0, le_rfl, le_rfl, by simp⟩
    · rintro ⟨k, h0, h1, rfl⟩
      have hk : k = 0 := by omega
      subst hk; simp
  | succ n ih =>
    intro u hu0 hud hun
    by_cases hu : u = 0
    · subst hu
      refine ⟨[(x2, y2)], by simp [plotLoop], fun p => ?_⟩
      simp only [List.mem_singleton]
      constructor
      · rintro rfl; exact ⟨0, le_rfl, le_rfl, by simp⟩
      · rintro ⟨k, h0, h1, rfl⟩
        have hk : k = 0 := by omega
        subst hk; simp
    · have hu1 : 1 ≤ u := by omega
      have hdx1 : 1 ≤ dx := by omega
      have hne : ¬(x2 - u * sx = x2 ∧ y2 = y2) := by
        rcases hsx with h | h <;> subst h <;> omega
      rw [plotLoop_succ_eq, if_neg hne]
      have hX : 2 * dx > -(0 : ℤ) := by omega
      have hY : ¬(2 * dx < dx) := by omega
      simp only [if_pos hX, if_neg hY]
      obtain ⟨L, hL, hiff⟩ := ih (u - 1) (by omega) (by omega) (by push_cast at hun; omega)
      rw [show x2 - u * sx + sx = x2 - (u - 1) * sx by ring, show dx - (0 : ℤ) = dx by ring,
        hL]
      refine ⟨(x2 - u * sx, y2) :: L, rfl, fun p => ?_⟩
      simp only [List.mem_cons]
      constructor
      · rintro (rfl | hp)
        · exact ⟨u, hu0, le_rfl, rfl⟩
        · obtain ⟨k, h0, h1, rfl⟩ := (hiff p).mp hp
          exact ⟨k, h0, by omega, rfl⟩
      · rintro ⟨k, h0, h1, rfl⟩
        by_cases hk : k = u
        · subst hk; exact Or.inl rfl
        · exact Or.inr ((hiff _).mpr ⟨k, h0, by omega, rfl⟩)

/-- For a vertical segment (`dx = 0`) the loop steps along y only, keeping
`err = -dy`; the plotted cells are exactly `(x2, y2 - k*sy)` for `0 ≤ k ≤ v`. -/
theorem plotLoop_vertical (x2 y2 dy sx sy : ℤ) (hsy : sy = 1 ∨ sy = -1) :
    ∀ (n : ℕ) (v : ℤ), 0 ≤ v → v ≤ dy → v ≤ (n : ℤ) →
    ∃ L, plotLoop x2 y2 0 dy sx sy (n + 1) x2 (y2 - v * sy) (-dy) = some L ∧
      ∀ p : ℤ × ℤ, p ∈ L ↔ ∃ k : ℤ, 0 ≤ k ∧ k ≤ v ∧ p = (x2, y2 - k * sy) := by
  intro n
  induction n with
  | zero =>
    intro v hv0 hvd hvn
    have hv : v = 0 := by omega
    subst hv
    refine ⟨[(x2, y2)], by simp [plotLoop], fun p => ?_⟩
    simp only [List.mem_singleton]
    constructor
    · rintro rfl; exact ⟨0, le_rfl, le_rfl, by simp⟩
    · rintro ⟨k, h0, h1, rfl⟩
      have hk : k = 0 := by omega
      subst hk; simp
  | succ n ih =>
    intro v hv0 hvd hvn
    by_cases hv : v = 0
    · subst hv
      refine ⟨[(x2, y2)], by simp [plotLoop], fun p => ?_⟩
      simp only [List.mem_singleton]
      constructor
      · rintro rfl; exact ⟨0, le_rfl, le_rfl, by simp⟩
      · rintro ⟨k, h0, h1, rfl⟩
        have hk : k = 0 := by omega
        subst hk; simp
    · have hv1 : 1 ≤ v := by omega
      have hdy1 : 1 ≤ dy := by omega
      have hne : ¬(x2 = x2 ∧ y2 - v * sy = y2) := by
        rcases hsy with h | h <;> subst h <;> omega
      rw [plotLoop_succ_eq, if_neg hne]
      have hX : ¬(2 * -dy > -dy) := by omega
      have hY : 2 * -dy < (0 : ℤ) := by omega
      simp only [if_neg hX, if_pos hY]
      obtain ⟨L, hL, hiff⟩ := ih (v - 1) (by omega) (by omega) (by push_cast at hvn; omega)
      rw [show y2 - v * sy + sy = y2 - (v - 1) * sy by ring,
        show -dy + (0 : ℤ) = -dy by ring, hL]
      refine ⟨(x2, y2 - v * sy) :: L, rfl, fun p => ?_⟩
      simp only [List.mem_cons]
      constructor
      · rintro (rfl | hp)
        · exact ⟨v, hv0, le_rfl, rfl⟩
        · obtain ⟨k, h0, h1, rfl⟩ := (hiff p).mp hp
          exact ⟨k, h0, by omega, rfl⟩
      · rintro ⟨k, h0, h1, rfl⟩
        by_cases hk : k = v
        · subst hk; exact Or.inl rfl
        · exact Or.inr ((hiff _).mpr ⟨k, h0, by omega, rfl⟩)

/-- For an exact diagonal (`dx = dy = d`) the error term stays `0` and both
branches fire every iteration; the plotted cells are exactly
`(x2 - k*sx, y2 - k*sy)` for `0 ≤ k ≤ u`. -/
theorem plotLoop_diagonal (x2 y2 d sx sy : ℤ) (hsx : sx = 1 ∨ sx = -1) :
    ∀ (n : ℕ) (u : ℤ), 0 ≤ u → u ≤ d → u ≤ (n : ℤ) →
    ∃ L, plotLoop x2 y2 d d sx sy (n + 1) (x2 - u * sx) (y2 - u * sy) 0 = some L ∧
      ∀ p : ℤ × ℤ, p ∈ L ↔ ∃ k : ℤ, 0 ≤ k ∧ k ≤ u ∧ p = (x2 - k * sx, y2 - k * sy) := by
  intro n
  induction n with
  | zero =>
    intro u hu0 hud hun
    have hu : u = 0 := by omega
    subst hu
    refine ⟨[(x2, y2)], by simp [plotLoop], fun p => ?_⟩
    simp only [List.mem_singleton]
    constructor
    · rintro rfl; exact ⟨0, le_rfl, le_rfl, by simp⟩
    · rintro ⟨k, h0, h1, rfl⟩
      have hk : k = 0 := by omega
      subst hk; simp
  | succ n ih =>
    intro u hu0 hud hun
    by_cases hu : u = 0
    · subst hu
      refine ⟨[(x2, y2)], by simp [plotLoop], fun p => ?_⟩
      simp only [List.mem_singleton]
      constructor
      · rintro rfl; exact ⟨0, le_rfl, le_rfl, by simp⟩
      · rintro ⟨k, h0, h1, rfl⟩
        have hk : k = 0 := by omega
        subst hk; simp
    · have hu1 : 1 ≤ u := by omega
      have hd1 : 1 ≤ d := by omega
      have hne : ¬(x2 - u * sx = x2 ∧ y2 - u * sy = y2) := by
        rcases hsx with h | h <;> subst h <;> omega
      rw [plotLoop_succ_eq, if_neg hne]
      have hX : 2 * (0 : ℤ) > -d := by omega
      have hY : 2 * (0 : ℤ) < d := by omega
      simp only [if_pos hX, if_pos hY]
      obtain ⟨L, hL, hiff⟩ := ih (u - 1) (by omega) (by omega) (by push_cast at hun; omega)
      rw [show x2 - u * sx + sx = x2 - (u - 1) * sx by ring,
        show y2 - u * sy + sy = y2 - (u - 1) * sy by ring,
        show (0 : ℤ) - d + d = 0 by ring, hL]
      refine ⟨(x2 - u * sx, y2 - u * sy) :: L, rfl, fun p => ?_⟩
      simp only [List.mem_cons]
      constructor
      · rintro (rfl | hp)
        · exact ⟨u, hu0, le_rfl, rfl⟩
        · obtain ⟨k, h0, h1, rfl⟩ := (hiff p).mp hp
          exact ⟨k, h0, by omega, rfl⟩
      · rintro ⟨k, h0, h1, rfl⟩
        by_cases hk : k = u
        · subst hk; exact Or.inl rfl
        · exact Or.inr ((hiff _).mpr ⟨k, h0, by omega, rfl⟩)

/-- Characterization of the cells `drawLine` plots for a horizontal segment. -/
theorem drawLine_horizontal_char (x1 x2 y : ℤ) :
    ∃ (L : List (ℤ × ℤ)) (dx sx : ℤ), drawLine x1 y x2 y = some L ∧ 0 ≤ dx ∧
      (sx = 1 ∨ sx = -1) ∧ dx * sx = x2 - x1 ∧
      ∀ p : ℤ × ℤ, p ∈ L ↔ ∃ k : ℤ, 0 ≤ k ∧ k ≤ dx ∧ p = (x2 - k * sx, y) := by
  rw [drawLine_def]
  simp only [sub_self, lt_self_iff_false, if_false, add_zero, sub_zero]
  set dx := (if x2 - x1 < 0 then -(x2 - x1) else x2 - x1) with hdxd
  set sx := (if x1 < x2 then (1 : ℤ) else -1) with hsxd
  have hdx0 : 0 ≤ dx := by rw [hdxd]; split <;> omega
  have hsx1 : sx = 1 ∨ sx = -1 := by rw [hsxd]; split <;> simp
  have hxe : dx * sx = x2 - x1 := by rw [hdxd, hsxd]; split <;> split <;> omega
  rw [show (dx + 1).toNat = dx.toNat + 1 by omega]
  obtain ⟨L, hL, hiff⟩ :=
    plotLoop_horizontal x2 y dx sx (-1) hsx1 dx.toNat dx hdx0 le_rfl (by omega)
  rw [show x2 - dx * sx = x1 by linarith] at hL
  exact ⟨L, dx, sx, hL, hdx0, hsx1, hxe, hiff⟩

/-- Characterization of the cells `drawLine` plots for a vertical segment. -/
theorem drawLine_vertical_char (x y1 y2 : ℤ) :
    ∃ (L : List (ℤ × ℤ)) (dy sy : ℤ), drawLine x y1 x y2 = some L ∧ 0 ≤ dy ∧
      (sy = 1 ∨ sy = -1) ∧ dy * sy = y2 - y1 ∧
      ∀ p : ℤ × ℤ, p ∈ L ↔ ∃ k : ℤ, 0 ≤ k ∧ k ≤ dy ∧ p = (x, y2 - k * sy) := by
  rw [drawLine_def]
  simp only [sub_self, lt_self_iff_false, if_false, zero_add, zero_sub]
  set dy := (if y2 - y1 < 0 then -(y2 - y1) else y2 - y1) with hdyd
  set sy := (if y1 < y2 then (1 : ℤ) else -1) with hsyd
  have hdy0 : 0 ≤ dy := by rw [hdyd]; split <;> omega
  have hsy1 : sy = 1 ∨ sy = -1 := by rw [hsyd]; split <;> simp
  have hye : dy * sy = y2 - y1 := by rw [hdyd, hsyd]; split <;> split <;> omega
  rw [show (dy + 1).toNat = dy.toNat + 1 by omega]
  obtain ⟨L, hL, hiff⟩ :=
    plotLoop_vertical x y2 dy (-1) sy hsy1 dy.toNat dy hdy0 le_rfl (by omega)
  rw [show y2 - dy * sy = y1 by linarith] at hL
  exact ⟨L, dy, sy, hL, hdy0, hsy1, hye, hiff⟩

/-- Characterization of the cells `drawLine` plots for an exact diagonal
segment (`|x2 - x1| = |y2 - y1|`). -/
theorem drawLine_diagonal_char (x1 y1 x2 y2 : ℤ)
    (habs : (x2 - x1).natAbs = (y2 - y1).natAbs) :
    ∃ (L : List (ℤ × ℤ)) (d sx sy : ℤ), drawLine x1 y1 x2 y2 = some L ∧ 0 ≤ d ∧
      (sx = 1 ∨ sx = -1) ∧ (sy = 1 ∨ sy = -1) ∧
      d * sx = x2 - x1 ∧ d * sy = y2 - y1 ∧
      ∀ p : ℤ × ℤ, p ∈ L ↔ ∃ k : ℤ, 0 ≤ k ∧ k ≤ d ∧ p = (x2 - k * sx, y2 - k * sy) := by
  rw [drawLine_def]
  set dx := (if x2 - x1 < 0 then -(x2 - x1) else x2 - x1) with hdxd
  set dy := (if y2 - y1 < 0 then -(y2 - y1) else y2 - y1) with hdyd
  set sx := (if x1 < x2 then (1 : ℤ) else -1) with hsxd
  set sy := (if y1 < y2 then (1 : ℤ) else -1) with hsyd
  have hdx0 : 0 ≤ dx := by rw [hdxd]; split <;> omega
  have hsx1 : sx = 1 ∨ sx = -1 := by rw [hsxd]; split <;> simp
  have hsy1 : sy = 1 ∨ sy = -1 := by rw [hsyd]; split <;> simp
  have hxe : dx * sx = x2 - x1 := by rw [hdxd, hsxd]; split <;> split <;> omega
  have hye : dy * sy = y2 - y1 := by rw [hdyd, hsyd]; split <;> split <;> omega
  have hdd : dy = dx := by rw [hdxd, hdyd]; split <;> split <;> omega
  rw [hdd] at hye ⊢
  rw [show dx - dx = (0 : ℤ) by ring, show (dx + dx + 1).toNat = dx.toNat + dx.toNat + 1 by omega]
  obtain ⟨L, hL, hiff⟩ :=
    plotLoop_diagonal x2 y2 dx sx sy hsx1 (dx.toNat + dx.toNat) dx hdx0 le_rfl (by omega)
  rw [show x2 - dx * sx = x1 by linarith, show y2 - dx * sy = y1 by linarith] at hL
  exact ⟨L, dx, sx, sy, hL, hdx0, hsx1, hsy1, hxe, hye, hiff⟩

/-- Endpoint exchange preserves the plotted set for horizontal segments. -/
theorem drawLine_reverse_horizontal (x1 x2 y : ℤ) :
    ∃ L1 L2, drawLine x1 y x2 y = some L1 ∧ drawLine x2 y x1 y = some L2 ∧
      ∀ p : ℤ × ℤ, p ∈ L1 ↔ p ∈ L2 := by
  obtain ⟨L1, da, sa, h1, ha0, ha1, hae, hiff1⟩ := drawLine_horizontal_char x1 x2 y
  obtain ⟨L2, db, sb, h2, hb0, hb1, hbe, hiff2⟩ := drawLine_horizontal_char x2 x1 y
  have hD : da = db := by
    rcases ha1 with h | h <;> rcases hb1 with h' | h' <;> subst h <;> subst h' <;> omega
  refine ⟨L1, L2, h1, h2, fun p => (hiff1 p).trans (Iff.trans ?_ (hiff2 p).symm)⟩
  constructor
  · rintro ⟨k, h0, h1', rfl⟩
    refine ⟨da - k, by omega, by omega, ?_⟩
    rw [Prod.mk.injEq]
    refine ⟨?_, rfl⟩
    rcases ha1 with h | h <;> rcases hb1 with h' | h' <;> subst h <;> subst h' <;> omega
  · rintro ⟨k, h0, h1', rfl⟩
    refine ⟨db - k, by omega, by omega, ?_⟩
    rw [Prod.mk.injEq]
    refine ⟨?_, rfl⟩
    rcases ha1 with h | h <;> rcases hb1 with h' | h' <;> subst h <;> subst h' <;> omega

/-- Endpoint exchange preserves the plotted set for vertical segments. -/
theorem drawLine_reverse_vertical (x y1 y2 : ℤ) :
    ∃ L1 L2, drawLine x y1 x y2 = some L1 ∧ drawLine x y2 x y1 = some L2 ∧
      ∀ p : ℤ × ℤ, p ∈ L1 ↔ p ∈ L2 := by
  obtain ⟨L1, da, sa, h1, ha0, ha1, hae, hiff1⟩ := drawLine_vertical_char x y1 y2
  obtain ⟨L2, db, sb, h2, hb0, hb1, hbe, hiff2⟩ := drawLine_vertical_char x y2 y1
  have hD : da = db := by
    rcases ha1 with h | h <;> rcases hb1 with h' | h' <;> subst h <;> subst h' <;> omega
  refine ⟨L1, L2, h1, h2, fun p => (hiff1 p).trans (Iff.trans ?_ (hiff2 p).symm)⟩
  constructor
  · rintro ⟨k, h0, h1', rfl⟩
    refine ⟨da - k, by omega, by omega, ?_⟩
    rw [Prod.mk.injEq]
    refine ⟨rfl, ?_⟩
    rcases ha1 with h | h <;> rcases hb1 with h' | h' <;> subst h <;> subst h' <;> omega
  · rintro ⟨k, h0, h1', rfl⟩
    refine ⟨db - k, by omega, by omega, ?_⟩
    rw [Prod.mk.injEq]
    refine ⟨rfl, ?_⟩
    rcases ha1 with h | h <;> rcases hb1 with h' | h' <;> subst h <;> subst h' <;> omega

/-- Endpoint exchange preserves the plotted set for exact diagonals. -/
theorem drawLine_reverse_diagonal (x1 y1 x2 y2 : ℤ)
    (habs : (x2 - x1).natAbs = (y2 - y1).natAbs) :
    ∃ L1 L2, drawLine x1 y1 x2 y2 = some L1 ∧ drawLine x2 y2 x1 y1 = some L2 ∧
      ∀ p : ℤ × ℤ, p ∈ L1 ↔ p ∈ L2 := by
  obtain ⟨L1, da, sxa, sya, h1, ha0, hax1, hay1, haxe, haye, hiff1⟩ :=
    drawLine_diagonal_char x1 y1 x2 y2 habs
  obtain ⟨L2, db, sxb, syb, h2, hb0, hbx1, hby1, hbxe, hbye, hiff2⟩ :=
    drawLine_diagonal_char x2 y2 x1 y1 (by omega)
  have hD : da = db := by
    rcases hax1 with h | h <;> rcases hbx1 with h' | h' <;> subst h <;> subst h' <;> omega
  refine ⟨L1, L2, h1, h2, fun p => (hiff1 p).trans (Iff.trans ?_ (hiff2 p).symm)⟩
  constructor
  · rintro ⟨k, h0, h1', rfl⟩
    refine ⟨da - k, by omega, by omega, ?_⟩
    rw [Prod.mk.injEq]
    constructor
    · rcases hax1 with h | h <;> rcases hbx1 with h' | h' <;> subst h <;> subst h' <;> omega
    · rcases hay1 with h | h <;> rcases hby1 with h' | h' <;> subst h <;> subst h' <;> omega
  · rintro ⟨k, h0, h1', rfl⟩
    refine ⟨db - k, by omega, by omega, ?_⟩
    rw [Prod.mk.injEq]
    constructor
    · rcases hax1 with h | h <;> rcases hbx1 with h' | h' <;> subst h <;> subst h' <;> omega
    · rcases hay1 with h | h <;> rcases hby1 with h' | h' <;> subst h <;> subst h' <;> omega

end RasterizerLemmas

section Theorems

/-- Claim C2: for every matrix `M` and vector `v`, `MultiplyVec3` returns the
transformed components `(x,y,z)` together with the homogeneous divisor `w`
and performs no division by `w`: the components are exactly the undivided
linear combinations over columns 0, 1, 2, 3 of `M` (slots `{0,4,8,12}`,
`{1,5,9,13}`, `{2,6,10,14}`), and `w = v.X*M[3] + v.Y*M[7] + v.Z*M[11] + M[15]`. -/
theorem multiplyVec3_returns_undivided (M : Mat4x4 ℝ) (v : Vec3 ℝ) :
    (M.MultiplyVec3 v).1.X = v.X * M.M0 + v.Y * M.M4 + v.Z * M.M8 + M.M12 ∧
    (M.MultiplyVec3 v).1.Y = v.X * M.M1 + v.Y * M.M5 + v.Z * M.M9 + M.M13 ∧
    (M.MultiplyVec3 v).1.Z = v.X * M.M2 + v.Y * M.M6 + v.Z * M.M10 + M.M14 ∧
    (M.MultiplyVec3 v).2 = v.X * M.M3 + v.Y * M.M7 + v.Z * M.M11 + M.M15 :=
  ⟨rfl, rfl, rfl, rfl⟩

/-- Claim C9: `drawLine` terminates for every pair of integer endpoints — the
Bresenham loop reaches the exact endpoint `(x2, y2)` within `dx + dy + 1`
iterations (so the fuelled loop returns `some`), and both endpoints are among
the plotted cells. -/
theorem drawLine_terminates_endpoints (x1 y1 x2 y2 : ℤ) :
    ∃ L, drawLine x1 y1 x2 y2 = some L ∧ (x1, y1) ∈ L ∧ (x2, y2) ∈ L := by
  rw [drawLine_def]
  set dx := (if x2 - x1 < 0 then -(x2 - x1) else x2 - x1) with hdxd
  set dy := (if y2 - y1 < 0 then -(y2 - y1) else y2 - y1) with hdyd
  set sx := (if x1 < x2 then (1 : ℤ) else -1) with hsxd
  set sy := (if y1 < y2 then (1 : ℤ) else -1) with hsyd
  have hdx0 : 0 ≤ dx := by rw [hdxd]; split <;> omega
  have hdy0 : 0 ≤ dy := by rw [hdyd]; split <;> omega
  have hsx1 : sx = 1 ∨ sx = -1 := by rw [hsxd]; split <;> simp
  have hsy1 : sy = 1 ∨ sy = -1 := by rw [hsyd]; split <;> simp
  have hxe : dx * sx = x2 - x1 := by rw [hdxd, hsxd]; split <;> split <;> omega
  have hye : dy * sy = y2 - y1 := by rw [hdyd, hsyd]; split <;> split <;> omega
  rw [show (dx + dy + 1).toNat = (dx + dy).toNat + 1 by omega]
  exact plotLoop_start x1 y1 x2 y2 dx dy sx sy ((dx + dy).toNat) hsx1 hsy1 hdx0 hdy0
    hxe hye (by omega)

/-- Claim C6 (amended): for endpoint pairs that are vertical (`x1 = x2`),
horizontal (`y1 = y2`), or exactly diagonal (`|x2 - x1| = |y2 - y1|`), the
set of cells plotted by `drawLine x1 y1 x2 y2` equals the set plotted by
`drawLine x2 y2 x1 y1`; for general endpoints the two plotted sets can
differ (see the counterexample at `(0,0)`–`(2,1)`). -/
theorem drawLine_symmetric_special (x1 y1 x2 y2 : ℤ)
    (h : x1 = x2 ∨ y1 = y2 ∨ (x2 - x1).natAbs = (y2 - y1).natAbs) :
    ∃ L1 L2, drawLine x1 y1 x2 y2 = some L1 ∧ drawLine x2 y2 x1 y1 = some L2 ∧
      ∀ p : ℤ × ℤ, p ∈ L1 ↔ p ∈ L2 := by
  rcases h with h | h | h
  · subst h; exact drawLine_reverse_vertical x1 y1 y2
  · subst h; exact drawLine_reverse_horizontal x1 x2 y1
  · exact drawLine_reverse_diagonal x1 y1 x2 y2 h

/-- Witness for the amended claim C6 at the diagonal-free concrete input
`(0,0)`–`(3,0)` (a horizontal segment). -/
theorem drawLine_symmetric_special_witness :
    ((0 : ℤ) = 3 ∨ (0 : ℤ) = 0 ∨ ((3 : ℤ) - 0).natAbs = ((0 : ℤ) - 0).natAbs) ∧
    ∃ L1 L2, drawLine 0 0 3 0 = some L1 ∧ drawLine 3 0 0 0 = some L2 ∧
      ∀ p : ℤ × ℤ, p ∈ L1 ↔ p ∈ L2 :=
  ⟨Or.inr (Or.inl rfl), drawLine_symmetric_special 0 0 3 0 (Or.inr (Or.inl rfl))⟩

/-- Counterexample to claim C6 as stated: for the endpoints `(0,0)` and
`(2,1)` the forward trace plots `(1,0)` while the reversed trace plots
`(1,1)` instead, so the two plotted sets differ. -/
theorem drawLine_reverse_counterexample :
    drawLine 0 0 2 1 = some [(0, 0), (1, 0), (2, 1)] ∧
    drawLine 2 1 0 0 = some [(2, 1), (1, 1), (0, 0)] ∧
    ((1 : ℤ), (0 : ℤ)) ∈ [((0 : ℤ), (0 : ℤ)), (1, 0), (2, 1)] ∧
    ((1 : ℤ), (0 : ℤ)) ∉ [((2 : ℤ), (1 : ℤ)), (1, 1), (0, 0)] := by
  refine ⟨by decide, by decide, by decide, by decide⟩

/-- Claim C7: each `Update` first multiplies the velocity componentwise by
the friction constant `0.99` and then adds the new velocity to the position
(in that order — the position update uses the post-friction velocity); in
particular, from velocity `(1,0,0)` one step yields exactly `(0.99, 0, 0)`. -/
theorem update_physics_step (gs : GameState) :
    (gs.Update).player.Velocity = gs.player.Velocity.Scale friction ∧
    (gs.Update).player.Position = gs.player.Position.Add (gs.player.Velocity.Scale friction) ∧
    (GameState.Update
        { vertices := []
          angle := 0
          player :=
            { Position := ⟨0, 0, 0⟩, Velocity := ⟨1, 0, 0⟩, Yaw := 0, Pitch := 0,
              prevMouseX := 0, prevMouseY := 0, firstMouse := false } }).player.Velocity
      = ⟨0.99, 0, 0⟩ := by
  refine ⟨rfl, rfl, ?_⟩
  simp [GameState.Update, Vec3.Scale, friction]

/-- Claim C10: `Update` mutates only the spin angle (increased by `0.01`),
the player's velocity and the player's position; the mesh vertex list, the
yaw, the pitch and the mouse-tracking fields are unchanged. -/
theorem update_frame_condition (gs : GameState) :
    (gs.Update).vertices = gs.vertices ∧
    (gs.Update).angle = gs.angle + 0.01 ∧
    (gs.Update).player.Yaw = gs.player.Yaw ∧
    (gs.Update).player.Pitch = gs.player.Pitch ∧
    (gs.Update).player.prevMouseX = gs.player.prevMouseX ∧
    (gs.Update).player.prevMouseY = gs.player.prevMouseY ∧
    (gs.Update).player.firstMouse = gs.player.firstMouse :=
  ⟨rfl, rfl, rfl, rfl, rfl, rfl, rfl⟩

/-- Claim C3: composition matches "rightmost operand applied first" — for all
matrices `A`, `B` and every vector `v`, transforming by `Multiply A B` and
dividing gives the same point as transforming by `B`, dividing, transforming
by `A`, and dividing again (whenever the two divisors are nonzero). -/
theorem multiply_compose_transformPoint (A B : Mat4x4 ℝ) (v : Vec3 ℝ)
    (hB : (B.MultiplyVec3 v).2 ≠ 0)
    (hAB : ((A.Multiply B).MultiplyVec3 v).2 ≠ 0) :
    homogeneousDivide ((A.Multiply B).MultiplyVec3 v).1 ((A.Multiply B).MultiplyVec3 v).2 =
      homogeneousDivide
        (A.MultiplyVec3 (homogeneousDivide (B.MultiplyVec3 v).1 (B.MultiplyVec3 v).2)).1
        (A.MultiplyVec3 (homogeneousDivide (B.MultiplyVec3 v).1 (B.MultiplyVec3 v).2)).2 := by
  obtain ⟨a0, a1, a2, a3, a4, a5, a6, a7, a8, a9, a10, a11, a12, a13, a14, a15⟩ := A
  obtain ⟨b0, b1, b2, b3, b4, b5, b6, b7, b8, b9, b10, b11, b12, b13, b14, b15⟩ := B
  obtain ⟨vx, vy, vz⟩ := v
  simp only [Mat4x4.Multiply, Mat4x4.MultiplyVec3, homogeneousDivide] at hB hAB ⊢
  have key : ∀ c0 c4 c8 c12 : ℝ,
      (vx * b0 + vy * b4 + vz * b8 + b12) / (vx * b3 + vy * b7 + vz * b11 + b15) * c0 +
        (vx * b1 + vy * b5 + vz * b9 + b13) / (vx * b3 + vy * b7 + vz * b11 + b15) * c4 +
        (vx * b2 + vy * b6 + vz * b10 + b14) / (vx * b3 + vy * b7 + vz * b11 + b15) * c8 +
        c12
      = (vx * (c0 * b0 + c4 * b1 + c8 * b2 + c12 * b3) +
          vy * (c0 * b4 + c4 * b5 + c8 * b6 + c12 * b7) +
          vz * (c0 * b8 + c4 * b9 + c8 * b10 + c12 * b11) +
          (c0 * b12 + c4 * b13 + c8 * b14 + c12 * b15)) /
        (vx * b3 + vy * b7 + vz * b11 + b15) := by
    intro c0 c4 c8 c12
    field_simp
    ring
  rw [Vec3.mk.injEq]
  rw [key a3 a7 a11 a15, key a0 a4 a8 a12, key a1 a5 a9 a13, key a2 a6 a10 a14]
  simp only [div_div_div_cancel_right₀ hB]
  exact ⟨trivial, trivial, trivial⟩

/-- Witness for claim C3 at concrete translation matrices and `v = (1,1,1)`,
where both homogeneous divisors are `1`. -/
theorem multiply_compose_transformPoint_witness :
    ((NewTranslation (4 : ℝ) 5 6).MultiplyVec3 ⟨1, 1, 1⟩).2 ≠ 0 ∧
    (((NewTranslation (1 : ℝ) 2 3).Multiply (NewTranslation 4 5 6)).MultiplyVec3
        ⟨1, 1, 1⟩).2 ≠ 0 ∧
    homogeneousDivide
        (((NewTranslation (1 : ℝ) 2 3).Multiply (NewTranslation 4 5 6)).MultiplyVec3
          ⟨1, 1, 1⟩).1
        (((NewTranslation (1 : ℝ) 2 3).Multiply (NewTranslation 4 5 6)).MultiplyVec3
          ⟨1, 1, 1⟩).2 =
      homogeneousDivide
        ((NewTranslation (1 : ℝ) 2 3).MultiplyVec3
          (homogeneousDivide ((NewTranslation (4 : ℝ) 5 6).MultiplyVec3 ⟨1, 1, 1⟩).1
            ((NewTranslation (4 : ℝ) 5 6).MultiplyVec3 ⟨1, 1, 1⟩).2)).1
        ((NewTranslation (1 : ℝ) 2 3).MultiplyVec3
          (homogeneousDivide ((NewTranslation (4 : ℝ) 5 6).MultiplyVec3 ⟨1, 1, 1⟩).1
            ((NewTranslation (4 : ℝ) 5 6).MultiplyVec3 ⟨1, 1, 1⟩).2)).2 :=
  ⟨by norm_num [Mat4x4.MultiplyVec3, NewTranslation],
   by norm_num [Mat4x4.MultiplyVec3, Mat4x4.Multiply, NewTranslation],
   multiply_compose_transformPoint _ _ _
     (by norm_num [Mat4x4.MultiplyVec3, NewTranslation])
     (by norm_num [Mat4x4.MultiplyVec3, Mat4x4.Multiply, NewTranslation])⟩

/-- Claim C4: the pipeline culls exactly when
`Dot(Cross(tv2 - tv1, tv3 - tv1), tv1) ≥ 0` on the model-view-transformed
(undivided) vertices, a culled triangle is skipped; the concrete triangle
`(0,0,-1),(1,0,-1),(0,1,-1)` seen through the identity transform is not
culled, and the same triangle with reversed vertex order is culled. -/
theorem backface_culling_spec (mv mvp : Mat4x4 ℝ) (v1 v2 v3 : Vec3 ℝ) :
    (backfaceCulled mv v1 v2 v3 = true ↔
      0 ≤ (((mv.MultiplyVec3 v2).1.Sub (mv.MultiplyVec3 v1).1).Cross
          ((mv.MultiplyVec3 v3).1.Sub (mv.MultiplyVec3 v1).1)).Dot
          (mv.MultiplyVec3 v1).1) ∧
    (backfaceCulled mv v1 v2 v3 = true → processTriangle mv mvp v1 v2 v3 = none) ∧
    backfaceCulled (NewTranslation (0 : ℝ) 0 0) ⟨0, 0, -1⟩ ⟨1, 0, -1⟩ ⟨0, 1, -1⟩ = false ∧
    processTriangle (NewTranslation (0 : ℝ) 0 0) (NewTranslation 0 0 0)
      ⟨0, 0, -1⟩ ⟨1, 0, -1⟩ ⟨0, 1, -1⟩ ≠ none ∧
    backfaceCulled (NewTranslation (0 : ℝ) 0 0) ⟨0, 0, -1⟩ ⟨0, 1, -1⟩ ⟨1, 0, -1⟩ = true ∧
    processTriangle (NewTranslation (0 : ℝ) 0 0) (NewTranslation 0 0 0)
      ⟨0, 0, -1⟩ ⟨0, 1, -1⟩ ⟨1, 0, -1⟩ = none := by
  refine ⟨?_, ?_, ?_, ?_, ?_, ?_⟩
  · simp [backfaceCulled]
  · intro hcull
    simp [processTriangle, hcull]
  · norm_num [backfaceCulled, Mat4x4.MultiplyVec3, NewTranslation,
      Vec3.Sub, Vec3.Cross, Vec3.Dot]
  · norm_num [processTriangle, backfaceCulled, Mat4x4.MultiplyVec3, NewTranslation,
      Vec3.Sub, Vec3.Cross, Vec3.Dot]
    exact Option.some_ne_none _
  · norm_num [backfaceCulled, Mat4x4.MultiplyVec3, NewTranslation,
      Vec3.Sub, Vec3.Cross, Vec3.Dot]
  · norm_num [processTriangle, backfaceCulled, Mat4x4.MultiplyVec3, NewTranslation,
      Vec3.Sub, Vec3.Cross, Vec3.Dot]

/-- Witness for claim C4's conditional conjunct: the reversed concrete
triangle is culled, hence skipped by the pipeline stage. -/
theorem backface_culling_spec_witness :
    backfaceCulled (NewTranslation (0 : ℝ) 0 0) ⟨0, 0, -1⟩ ⟨0, 1, -1⟩ ⟨1, 0, -1⟩ = true ∧
    processTriangle (NewTranslation (0 : ℝ) 0 0) (NewTranslation 0 0 0)
      ⟨0, 0, -1⟩ ⟨0, 1, -1⟩ ⟨1, 0, -1⟩ = none :=
  ⟨by norm_num [backfaceCulled, Mat4x4.MultiplyVec3, NewTranslation,
      Vec3.Sub, Vec3.Cross, Vec3.Dot],
   (backface_culling_spec (NewTranslation (0 : ℝ) 0 0) (NewTranslation 0 0 0)
      ⟨0, 0, -1⟩ ⟨0, 1, -1⟩ ⟨1, 0, -1⟩).2.1
     (by norm_num [backfaceCulled, Mat4x4.MultiplyVec3, NewTranslation,
        Vec3.Sub, Vec3.Cross, Vec3.Dot])⟩

/-- Claim C5: if any of the three homogeneous divisors is below the near
epsilon `0.1` the whole triangle is discarded (no partial clipping), and any
triangle that reaches the perspective divide has all three divisors `≥ 0.1`,
so the divide never uses a divisor below `0.1`. -/
theorem near_plane_clip_policy (mv mvp : Mat4x4 ℝ) (v1 v2 v3 : Vec3 ℝ) :
    (((mvp.MultiplyVec3 v1).2 < 0.1 ∨ (mvp.MultiplyVec3 v2).2 < 0.1 ∨
        (mvp.MultiplyVec3 v3).2 < 0.1) →
      processTriangle mv mvp v1 v2 v3 = none) ∧
    (∀ out, processTriangle mv mvp v1 v2 v3 = some out →
      0.1 ≤ (mvp.MultiplyVec3 v1).2 ∧ 0.1 ≤ (mvp.MultiplyVec3 v2).2 ∧
        0.1 ≤ (mvp.MultiplyVec3 v3).2) := by
  constructor
  · intro hw
    by_cases hc : backfaceCulled mv v1 v2 v3
    · simp [processTriangle, hc]
    · simp [processTriangle, hc, hw]
  · intro out hout
    by_cases hc : backfaceCulled mv v1 v2 v3
    · simp [processTriangle, hc] at hout
    · by_cases hw : (mvp.MultiplyVec3 v1).2 < 0.1 ∨ (mvp.MultiplyVec3 v2).2 < 0.1 ∨
        (mvp.MultiplyVec3 v3).2 < 0.1
      · simp [processTriangle, hc, hw] at hout
      · push_neg at hw
        exact ⟨hw.1, hw.2.1, hw.2.2⟩

/-- Witness for claim C5 at a concrete degenerate input: through the
`NewPerspective 90 1 0.1 100` matrix a vertex at depth `0.05` has divisor
`0.05 < 0.1`, so the triangle is discarded. -/
theorem near_plane_clip_policy_witness :
    (((NewPerspective 90 1 0.1 100).MultiplyVec3 ⟨0, 0, -0.05⟩).2 < 0.1 ∨
      ((NewPerspective 90 1 0.1 100).MultiplyVec3 ⟨0, 0, -5⟩).2 < 0.1 ∨
      ((NewPerspective 90 1 0.1 100).MultiplyVec3 ⟨0, 0, -6⟩).2 < 0.1) ∧
    processTriangle (NewTranslation (0 : ℝ) 0 0) (NewPerspective 90 1 0.1 100)
      ⟨0, 0, -0.05⟩ ⟨0, 0, -5⟩ ⟨0, 0, -6⟩ = none :=
  ⟨Or.inl (by norm_num [Mat4x4.MultiplyVec3, NewPerspective]),
   (near_plane_clip_policy (NewTranslation (0 : ℝ) 0 0) (NewPerspective 90 1 0.1 100)
      ⟨0, 0, -0.05⟩ ⟨0, 0, -5⟩ ⟨0, 0, -6⟩).1
     (Or.inl (by norm_num [Mat4x4.MultiplyVec3, NewPerspective]))⟩

/-- Claim C8: for a point directly in front of the camera at distance `d`
(view-space `(0,0,-d)`) with `near < d < far`, the divisor `w` produced by
the `NewPerspective` matrix equals `d`, is positive, and strictly increases
with the distance; for a distance below `near = 0.1` the divisor is below
`0.1` and therefore fails the clip test. -/
theorem perspective_divisor_monotone (fovArg aspect near far d dBig e : ℝ)
    (h0 : 0 < near) (hnd : near < d) (hdf : d < far) (hmono : d < dBig)
    (he : e < 0.1) :
    0 < ((NewPerspective fovArg aspect near far).MultiplyVec3 ⟨0, 0, -d⟩).2 ∧
    ((NewPerspective fovArg aspect near far).MultiplyVec3 ⟨0, 0, -d⟩).2 = d ∧
    ((NewPerspective fovArg aspect near far).MultiplyVec3 ⟨0, 0, -d⟩).2 <
      ((NewPerspective fovArg aspect near far).MultiplyVec3 ⟨0, 0, -dBig⟩).2 ∧
    ((NewPerspective fovArg aspect 0.1 100).MultiplyVec3 ⟨0, 0, -e⟩).2 < 0.1 := by
  have hw : ∀ a b c f z : ℝ,
      ((NewPerspective a b c f).MultiplyVec3 ⟨0, 0, z⟩).2 = -z := by
    intro a b c f z
    simp [NewPerspective, Mat4x4.MultiplyVec3]
  simp only [hw, neg_neg]
  refine ⟨by linarith, trivial, by linarith, by linarith⟩

/-- Witness for claim C8 at `fov = 90`, `aspect = 1`, `near = 0.1`,
`far = 100`, distances `1 < 2` and a too-close distance `0.05`. -/
theorem perspective_divisor_monotone_witness :
    ((0 : ℝ) < 0.1 ∧ (0.1 : ℝ) < 1 ∧ (1 : ℝ) < 100 ∧ (1 : ℝ) < 2 ∧ (0.05 : ℝ) < 0.1) ∧
    (0 < ((NewPerspective 90 1 0.1 100).MultiplyVec3 ⟨0, 0, -1⟩).2 ∧
      ((NewPerspective 90 1 0.1 100).MultiplyVec3 ⟨0, 0, -1⟩).2 = 1 ∧
      ((NewPerspective 90 1 0.1 100).MultiplyVec3 ⟨0, 0, -1⟩).2 <
        ((NewPerspective 90 1 0.1 100).MultiplyVec3 ⟨0, 0, -2⟩).2 ∧
      ((NewPerspective 90 1 0.1 100).MultiplyVec3 ⟨0, 0, -0.05⟩).2 < 0.1) :=
  ⟨⟨by norm_num, by norm_num, by norm_num, by norm_num, by norm_num⟩,
   perspective_divisor_monotone 90 1 0.1 100 1 2 0.05 (by norm_num) (by norm_num)
     (by norm_num) (by norm_num) (by norm_num)⟩

/-- Counterexample to claim C1 as stated: starting from the initial state,
a first mouse event at `(0,0)` followed by a mouse event at `(0,-100)` drives
the pitch to `5`, which exceeds the clamp bound `π/2 - 0.01` — the mouse
branch mutates the pitch without any clamp. -/
theorem pitch_unclamped_mouse_counterexample :
    Real.pi / 2 - 0.01 <
      |(processEvent (processEvent initialState (Event.Mouse 0 0))
          (Event.Mouse 0 (-100))).player.Pitch| := by
  have h5 : (processEvent (processEvent initialState (Event.Mouse 0 0))
      (Event.Mouse 0 (-100))).player.Pitch = 5 := by
    simp [processEvent, initialState]
    norm_num
  rw [h5]
  have hpi : Real.pi < 3.15 := by
    have := Real.pi_lt_d2
    linarith
  rw [abs_of_pos (by norm_num : (0 : ℝ) < 5)]
  linarith

/-- Claim C1 (amended): the pitch clamp to `±(π/2 - 0.01)` is applied at the
end of the key-event branch, so after processing any key event other than the
quit key the pitch magnitude is at most `π/2 - 0.01`; the mouse-delta pitch
adjustment is not followed by a clamp, so mouse events can push the pitch
arbitrarily far past the bound (see the counterexample). -/
theorem pitch_clamp_key_events (gs : GameState) (c : Char) (hc : c ≠ 'q') :
    |(processEvent gs (Event.Key c)).player.Pitch| ≤ Real.pi / 2 - 0.01 := by
  have hmax : (0 : ℝ) ≤ Real.pi / 2 - 0.01 := by
    have := Real.pi_gt_three
    linarith
  simp only [processEvent, if_neg hc]
  split_ifs with h1 h2
  · rw [abs_of_nonneg hmax]
  · rw [show |-(Real.pi / 2 - 0.01)| = |Real.pi / 2 - 0.01| from abs_neg _,
      abs_of_nonneg hmax]
  · rw [abs_le]
    constructor <;> linarith

/-- Witness for the amended claim C1: pressing 'r' in the initial state
leaves the pitch within the clamp bound. -/
theorem pitch_clamp_key_events_witness :
    ('r' ≠ 'q') ∧
    |(processEvent initialState (Event.Key 'r')).player.Pitch| ≤ Real.pi / 2 - 0.01 :=
  ⟨by decide, pitch_clamp_key_events initialState 'r' (by decide)⟩

end Theorems

end Spaceship
